import Mathlib

/-!
Verification development for the Hexachess engine
(`Source/Hexachess/Types/MoveResult.h`, `Source/Hexachess/Actors/ChessGod.cpp`).

The C++ engine stores the board as `std::map<int32, Cell*>`; we embed it as an
association list of `(key, Cell)` pairs kept in ascending key order (the order
`std::map` iterates in).  `int32` values are modelled as `Int` (no value in the
engine approaches the 32-bit range).  `operator>>` / `& 0xFF` on keys are
Euclidean division / remainder by 256, matching two's-complement arithmetic
shift for the key ranges involved.  A `std::map::operator[]` access to a key
that is absent default-inserts a null `Cell*`; a subsequent member call on it
is a null-pointer dereference (undefined behaviour).  Functions whose C++
bodies can perform such a dereference are embedded with result type `Option _`,
where `Option.none` marks exactly that undefined-behaviour path.
-/

namespace Hexachess

/-- Piece kinds, mirroring `Cell::PieceType`. -/
inductive PieceType where
  | none | pawn | knight | bishop | rook | queen | king
deriving DecidableEq

/-- Piece colors, mirroring `Cell::PieceColor`. -/
inductive PieceColor where
  | absent | white | black
deriving DecidableEq

/-- One board cell, mirroring class `Cell` (fields `piece`, `piece_color`). -/
structure Cell where
  piece : PieceType
  piece_color : PieceColor
deriving DecidableEq

/-- A default-constructed `Cell` (piece `none`, color `absent`). -/
def Cell.empty : Cell := ⟨PieceType.none, PieceColor.absent⟩

/-- Mirrors `Cell::has_piece`. -/
def Cell.has_piece (c : Cell) : Bool := decide (c.piece ≠ PieceType.none)

/-- Mirrors `Cell::has_piece_of_same_color` (argument is the other cell). -/
def Cell.has_piece_of_same_color (c other : Cell) : Bool :=
  c.has_piece && decide (c.piece_color ≠ PieceColor.absent)
    && decide (other.piece_color ≠ PieceColor.absent)
    && decide (c.piece_color = other.piece_color)

/-- Mirrors `Cell::has_piece_of_opposite_color`. -/
def Cell.has_piece_of_opposite_color (c other : Cell) : Bool :=
  c.has_piece && decide (c.piece_color ≠ PieceColor.absent)
    && decide (other.piece_color ≠ PieceColor.absent)
    && decide (c.piece_color ≠ other.piece_color)

/-- Mirrors `Cell::get_opposite_color` (the `switch` falls through to `absent`). -/
def Cell.get_opposite_color (c : Cell) : PieceColor :=
  match c.piece_color with
  | PieceColor.white => PieceColor.black
  | PieceColor.black => PieceColor.white
  | PieceColor.absent => PieceColor.absent

/-- Mirrors `struct Position` (a pair of `int32` coordinates). -/
structure Position where
  x : Int
  y : Int
deriving DecidableEq

/-- Board constant `median = 5`. -/
def median : Int := 5

/-- Board constant `max = 10` (named `max` in the source). -/
def max_xy : Int := 10

/-- Board constant `step_x = 1 << 8 = 256`. -/
def step_x : Int := 256

/-- Mirrors `Board::to_position_key(x, y) = (x << 8) + y`. -/
def to_position_key (x y : Int) : Int := x * 256 + y

/-- Mirrors the `Position` overload of `Board::to_position_key`. -/
def pos_key (p : Position) : Int := to_position_key p.x p.y

/-- Mirrors `Board::get_x(key) = key >> 8` (arithmetic shift = floor division). -/
def get_x (key : Int) : Int := key / 256

/-- Mirrors `Board::get_y(key) = key & 0xFF` (non-negative remainder). -/
def get_y (key : Int) : Int := key % 256

/-- Mirrors `Board::to_position`. -/
def to_position (key : Int) : Position := ⟨get_x key, get_y key⟩

/-- Mirrors `Board::move_vertically_up`. -/
def move_vertically_up (key : Int) : Int := key + 1

/-- Mirrors `Board::move_vertically_down`. -/
def move_vertically_down (key : Int) : Int := key - 1

/-- Mirrors `Board::move_horizontally_top_right`. -/
def move_horizontally_top_right (key : Int) : Int :=
  if get_x key < median then key + step_x + 1 else key + step_x

/-- Mirrors `Board::move_horizontally_top_left`. -/
def move_horizontally_top_left (key : Int) : Int :=
  if get_x key > median then key - step_x + 1 else key - step_x

/-- Mirrors `Board::move_horizontally_bottom_right`. -/
def move_horizontally_bottom_right (key : Int) : Int :=
  if get_x key < median then key + step_x else key + step_x - 1

/-- Mirrors `Board::move_horizontally_bottom_left`. -/
def move_horizontally_bottom_left (key : Int) : Int :=
  if get_x key > median then key - step_x else key - step_x - 1

/-- Mirrors `Board::move_diagonally_top_right`. -/
def move_diagonally_top_right (key : Int) : Int :=
  if get_x key < median then key + step_x + 2 else key + step_x + 1

/-- Mirrors `Board::move_diagonally_top_left`. -/
def move_diagonally_top_left (key : Int) : Int :=
  if get_x key > median then key - step_x + 2 else key - step_x + 1

/-- Mirrors `Board::move_diagonally_bottom_right`. -/
def move_diagonally_bottom_right (key : Int) : Int :=
  if get_x key < median then key + step_x - 1 else key + step_x - 2

/-- Mirrors `Board::move_diagonally_bottom_left`. -/
def move_diagonally_bottom_left (key : Int) : Int :=
  if get_x key > median then key - step_x - 1 else key - step_x - 2

/-- Mirrors `Board::move_diagonally_right` (C++ `%` and Lean `Int.emod` agree on
the only tested fact, `x % 2 == 0`, for every sign of `x`). -/
def move_diagonally_right (key : Int) : Int :=
  let x := get_x key
  if x % 2 = 0 then
    if x = median - 1 then key + step_x * 2
    else if x < median then key + step_x * 2 + 1
    else key + step_x * 2 - 1
  else
    if x < median then key + step_x * 2 + 1 else key + step_x * 2 - 1

/-- Mirrors `Board::move_diagonally_left`. -/
def move_diagonally_left (key : Int) : Int :=
  let x := get_x key
  if x % 2 = 0 then
    if x = median + 1 then key - step_x * 2
    else if x < median then key - step_x * 2 - 1
    else key - step_x * 2 + 1
  else
    if x ≤ median then key - step_x * 2 - 1 else key - step_x * 2 + 1

/-- The board mapping `std::map<int32, Cell*>`, as an association list in
ascending key order (the iteration order of `std::map`). -/
abbrev BoardMap := List (Int × Cell)

/-- Lookup of a key in the board mapping (`in_board.find(key)` semantics:
first matching entry). -/
def find_cell : BoardMap → Int → Option Cell
  | [], _ => Option.none
  | e :: rest, k => if e.1 = k then some e.2 else find_cell rest k

/-- Mirrors `Board::is_valid_position(in_board, key)`:
`in_board.find(key) != in_board.end()`. -/
def is_valid_position (bm : BoardMap) (key : Int) : Bool :=
  (find_cell bm key).isSome

/-- Overwrite the cell stored at `key` (the effect of mutating the `Cell`
object `in_board[key]` points at, for a key already present; on an absent key
this is a no-op, a case every caller in the engine rules out first). -/
def set_cell (bm : BoardMap) (key : Int) (c : Cell) : BoardMap :=
  bm.map fun e => if e.1 = key then (e.1, c) else e

/-- Mirrors the constructor's per-column `y_max` computation
(`y_max = median + x; if (y_max > max) y_max = max - y_max % max;`). -/
def col_y_max (x : Int) : Int :=
  let y0 := median + x
  if y0 > max_xy then max_xy - y0 % max_xy else y0

/-- Mirrors `Board::Board()`: one empty cell per valid position, columns
`x = 0..10`, rows `y = 0..y_max(x)`, in ascending key order. -/
def initial_board : BoardMap :=
  (List.range 11).flatMap fun x =>
    (List.range ((col_y_max (Int.ofNat x)).toNat + 1)).map fun y =>
      (to_position_key (Int.ofNat x) (Int.ofNat y), Cell.empty)

/-- Mirrors `Board::get_piece_keys`: iterate the map in ascending key order,
`push_front` every key whose cell has the requested color (hence the reversal). -/
def get_piece_keys (bm : BoardMap) (pc : PieceColor) : List Int :=
  ((bm.filter fun e => decide (e.2.piece_color = pc)).map Prod.fst).reverse

/-- Fixed white pawn starting keys (`Board::white_pawn_cell_keys`). -/
def white_pawn_cell_keys : List Int :=
  [256, 513, 770, 1027, 1284, 1539, 1794, 2049, 2304]

/-- Fixed black pawn starting keys (`Board::black_pawn_cell_keys`). -/
def black_pawn_cell_keys : List Int :=
  [262, 518, 774, 1030, 1286, 1542, 1798, 2054, 2310]

/-- Mirrors `Board::is_initial_pawn_cell`. -/
def is_initial_pawn_cell (key : Int) (cell : Cell) : Bool :=
  match cell.piece_color with
  | PieceColor.white => decide (key ∈ white_pawn_cell_keys)
  | PieceColor.black => decide (key ∈ black_pawn_cell_keys)
  | PieceColor.absent => false

/-- Mirrors `Board::add_if_valid`, returning the (zero- or one-element) batch
of keys it pushes onto the move list.  The cell access `in_board[key]` is
guarded by the validity test, so `getD` always yields the stored cell. -/
def add_if_valid (bm : BoardMap) (key : Int) (cell : Cell) (can_take : Bool) :
    List Int :=
  if is_valid_position bm key then
    if ((find_cell bm key).getD Cell.empty).has_piece then
      if ((find_cell bm key).getD Cell.empty).has_piece_of_opposite_color cell
          && can_take then
        [key]
      else []
    else [key]
  else []

/-- Mirrors `Board::add_pawn_take_if_valid`. -/
def add_pawn_take_if_valid (bm : BoardMap) (key : Int) (cell : Cell) :
    List Int :=
  if is_valid_position bm key &&
      ((find_cell bm key).getD Cell.empty).has_piece_of_opposite_color cell then
    [key]
  else []

/-- The body of `Board::add_pawn_moves` after its direction functions have been
selected by color: single forward step, conditional double step, two takes. -/
def pawn_moves_dir (bm : BoardMap) (key : Int) (cell : Cell)
    (fn_move fn_take_1 fn_take_2 : Int → Int) : List Int :=
  (if is_valid_position bm (fn_move key) then
      add_if_valid bm (fn_move key) cell false ++
        (if !((find_cell bm (fn_move key)).getD Cell.empty).has_piece &&
            is_initial_pawn_cell key cell then
          add_if_valid bm (fn_move (fn_move key)) cell false
        else [])
    else []) ++
    add_pawn_take_if_valid bm (fn_take_1 key) cell ++
    add_pawn_take_if_valid bm (fn_take_2 key) cell

/-- Mirrors `Board::add_pawn_moves` (the `switch` on the pawn's color; the
`default` branch returns with no moves). -/
def add_pawn_moves (bm : BoardMap) (key : Int) (cell : Cell) : List Int :=
  match cell.piece_color with
  | PieceColor.white =>
    pawn_moves_dir bm key cell move_vertically_up
      move_horizontally_top_left move_horizontally_top_right
  | PieceColor.black =>
    pawn_moves_dir bm key cell move_vertically_down
      move_horizontally_bottom_left move_horizontally_bottom_right
  | PieceColor.absent => []

/-- One direction of the sliding loop in `Board::add_valid_moves`: continue
over empty cells, capture-and-stop on an opposite-color cell, stop before a
same-color cell.  The loop is fuelled; each iteration lands on a distinct
valid key (the direction functions are strictly monotone in the key), so fuel
`bm.length + 1` is never exhausted and reproduces the `while` loop exactly. -/
def slide_dir (bm : BoardMap) (cell : Cell) (fn : Int → Int) :
    Nat → Int → List Int
  | 0, _ => []
  | Nat.succ fuel, pos =>
    if is_valid_position bm pos then
      if ((find_cell bm pos).getD Cell.empty).has_piece then
        if ((find_cell bm pos).getD Cell.empty).has_piece_of_same_color cell then
          []
        else [pos]
      else pos :: slide_dir bm cell fn fuel (fn pos)
    else []

/-- Mirrors `Board::add_valid_moves` over a list of direction functions. -/
def add_valid_moves (bm : BoardMap) (key : Int) (fns : List (Int → Int))
    (cell : Cell) : List Int :=
  fns.flatMap fun fn => slide_dir bm cell fn (bm.length + 1) (fn key)

/-- Mirrors `Board::add_bishop_moves` (six long-diagonal directions). -/
def add_bishop_moves (bm : BoardMap) (key : Int) (cell : Cell) : List Int :=
  add_valid_moves bm key
    [move_diagonally_top_right, move_diagonally_top_left,
     move_diagonally_bottom_right, move_diagonally_bottom_left,
     move_diagonally_right, move_diagonally_left] cell

/-- Mirrors `Board::add_rook_moves` (six straight directions). -/
def add_rook_moves (bm : BoardMap) (key : Int) (cell : Cell) : List Int :=
  add_valid_moves bm key
    [move_horizontally_top_right, move_horizontally_top_left,
     move_horizontally_bottom_right, move_horizontally_bottom_left,
     move_vertically_up, move_vertically_down] cell

/-- Mirrors `Board::add_knight_moves` (twelve two-step compositions). -/
def add_knight_moves (bm : BoardMap) (key : Int) (cell : Cell) : List Int :=
  let p1 := move_vertically_up (move_vertically_up key)
  let p2 := move_vertically_down (move_vertically_down key)
  let p3 := move_horizontally_top_right (move_horizontally_top_right key)
  let p4 := move_horizontally_bottom_right (move_horizontally_bottom_right key)
  let p5 := move_horizontally_bottom_left (move_horizontally_bottom_left key)
  let p6 := move_horizontally_top_left (move_horizontally_top_left key)
  add_if_valid bm (move_horizontally_top_right p1) cell true
    ++ add_if_valid bm (move_horizontally_top_left p1) cell true
    ++ add_if_valid bm (move_horizontally_bottom_right p2) cell true
    ++ add_if_valid bm (move_horizontally_bottom_left p2) cell true
    ++ add_if_valid bm (move_vertically_up p3) cell true
    ++ add_if_valid bm (move_horizontally_bottom_right p3) cell true
    ++ add_if_valid bm (move_vertically_down p4) cell true
    ++ add_if_valid bm (move_horizontally_top_right p4) cell true
    ++ add_if_valid bm (move_vertically_down p5) cell true
    ++ add_if_valid bm (move_horizontally_top_left p5) cell true
    ++ add_if_valid bm (move_vertically_up p6) cell true
    ++ add_if_valid bm (move_horizontally_bottom_left p6) cell true

/-- Mirrors `Board::add_king_moves` (twelve single steps, `can_take = true`). -/
def add_king_moves (bm : BoardMap) (key : Int) (cell : Cell) : List Int :=
  add_if_valid bm (move_vertically_up key) cell true
    ++ add_if_valid bm (move_vertically_down key) cell true
    ++ add_if_valid bm (move_horizontally_top_right key) cell true
    ++ add_if_valid bm (move_horizontally_top_left key) cell true
    ++ add_if_valid bm (move_horizontally_bottom_right key) cell true
    ++ add_if_valid bm (move_horizontally_bottom_left key) cell true
    ++ add_if_valid bm (move_diagonally_top_right key) cell true
    ++ add_if_valid bm (move_diagonally_top_left key) cell true
    ++ add_if_valid bm (move_diagonally_bottom_right key) cell true
    ++ add_if_valid bm (move_diagonally_bottom_left key) cell true
    ++ add_if_valid bm (move_diagonally_right key) cell true
    ++ add_if_valid bm (move_diagonally_left key) cell true

/-- The `switch (cell->get_piece_type())` block of `Board::get_valid_moves`:
the raw (unfiltered) candidate list for the piece standing on `key`.  The C++
code accumulates with `push_front`; this list is its exact reverse, so the two
agree as finite sets and multisets. -/
def raw_moves (bm : BoardMap) (key : Int) (cell : Cell) : List Int :=
  match cell.piece with
  | PieceType.none => []
  | PieceType.pawn => add_pawn_moves bm key cell
  | PieceType.bishop => add_bishop_moves bm key cell
  | PieceType.knight => add_knight_moves bm key cell
  | PieceType.rook => add_rook_moves bm key cell
  | PieceType.queen => add_bishop_moves bm key cell ++ add_rook_moves bm key cell
  | PieceType.king => add_king_moves bm key cell

/-- Mirrors `Board::get_all_piece_move_keys(in_board, pc, true)` (the
`skip_filter = true` mode used by attack detection): concatenation of every
raw candidate list of the given color.  Every iterated key is present in the
map, so the per-key `Option.none` branch is unreachable. -/
def all_raw_move_keys (bm : BoardMap) (pc : PieceColor) : List Int :=
  (get_piece_keys bm pc).flatMap fun k =>
    raw_moves bm k ((find_cell bm k).getD Cell.empty)

/-- Mirrors `Board::can_be_captured(in_board, key)`.  The C++ body starts with
`in_board[key]->get_opposite_color()`: on a key absent from the map this
dereferences a default-inserted null cell (undefined behaviour), modelled as
`Option.none`. -/
def can_be_captured (bm : BoardMap) (key : Int) : Option Bool :=
  (find_cell bm key).map fun c =>
    decide (key ∈ all_raw_move_keys bm c.get_opposite_color)

/-- Mirrors `Board::set_piece(in_board, pos, pt, pc)` (which returns `false`
on both paths). -/
def set_piece (bm : BoardMap) (pos : Position) (pt : PieceType)
    (pc : PieceColor) : BoardMap × Bool :=
  let key := pos_key pos
  if is_valid_position bm key then (set_cell bm key ⟨pt, pc⟩, false)
  else (bm, false)

/-- Mirrors `Board::move_piece(in_board, start, goal)` (which returns `true`
unconditionally): when both endpoints are valid, read the source cell, clear
it, and `set_piece` its old content onto the goal. -/
def move_piece (bm : BoardMap) (start goal : Position) : BoardMap × Bool :=
  let sp := pos_key start
  if is_valid_position bm sp && is_valid_position bm (pos_key goal) then
    match find_cell bm sp with
    | some c =>
      ((set_piece (set_cell bm sp Cell.empty) goal c.piece c.piece_color).1, true)
    | Option.none => (bm, true)
  else (bm, true)

/-- Tests whether the piece standing on `pk` is a king (the body of the
king-search loop in `Board::get_valid_moves`; `pk` is always present there). -/
def is_king_at (bm : BoardMap) (pk : Int) : Bool :=
  match find_cell bm pk with
  | some c => decide (c.piece = PieceType.king)
  | Option.none => false

/-- Mirrors `Board::get_valid_moves(in_board, key, skip_filter)`.  The body
starts with `Cell* cell = in_board[key]` followed by a member call: on an
absent key that is a null dereference (undefined behaviour), modelled as
`Option.none`.  Otherwise: generate the raw candidates, locate the mover's
king (first king in `get_piece_keys` order), and unless the filter is skipped
or no king exists, keep only candidates whose simulation leaves the king
non-capturable.  (The simulated `can_be_captured` call is always on an
occupied key, so comparing its result with `some false` matches the C++
`!can_be_captured(...)`.) -/
def get_valid_moves (bm : BoardMap) (key : Int) (skip_filter : Bool) :
    Option (List Int) :=
  match find_cell bm key with
  | Option.none => Option.none
  | some cell =>
    let l := raw_moves bm key cell
    let king_key := (get_piece_keys bm cell.piece_color).find? (is_king_at bm)
    match skip_filter, king_key with
    | true, _ => some l
    | false, Option.none => some l
    | false, some kk =>
      some (l.filter fun k =>
        let after := (move_piece bm (to_position key) (to_position k)).1
        let fk := if cell.piece = PieceType.king then k else kk
        decide (can_be_captured after fk = some false))

/-- Mirrors `Board::get_all_piece_move_keys(in_board, pc, skip_filter)` in
full generality (every iterated key is present, so `getD` never fires). -/
def get_all_piece_move_keys (bm : BoardMap) (pc : PieceColor)
    (skip_filter : Bool) : List Int :=
  (get_piece_keys bm pc).flatMap fun k =>
    (get_valid_moves bm k skip_filter).getD []

/-- Mirrors `Board::are_there_valid_moves`. -/
def are_there_valid_moves (bm : BoardMap) (pc : PieceColor) : Bool :=
  decide (0 < (get_all_piece_move_keys bm pc false).length)

/-- The `piece_values` map; `PieceType.none` maps to `0`, the value
`std::map::operator[]` default-inserts for the one key the literal lacks. -/
def piece_value : PieceType → Int
  | PieceType.none => 0
  | PieceType.pawn => 1
  | PieceType.knight => 3
  | PieceType.bishop => 3
  | PieceType.rook => 5
  | PieceType.queen => 9
  | PieceType.king => 100

/-- The white-loop body of `Board::evaluate`: a non-king piece adds its
value; a king subtracts 100 when capturable and otherwise contributes
nothing.  Every iterated key is present, so the `Option.none` branch is
unreachable. -/
def white_step (bm : BoardMap) (score k : Int) : Int :=
  match find_cell bm k with
  | some c =>
    if c.piece = PieceType.king then
      if can_be_captured bm k = some true then
        score - piece_value PieceType.king
      else score
    else score + piece_value c.piece
  | Option.none => score

/-- The black-loop body of `Board::evaluate`, with the signs flipped. -/
def black_step (bm : BoardMap) (score k : Int) : Int :=
  match find_cell bm k with
  | some c =>
    if c.piece = PieceType.king then
      if can_be_captured bm k = some true then
        score + piece_value PieceType.king
      else score
    else score - piece_value c.piece
  | Option.none => score

/-- Mirrors `Board::evaluate(in_board)`: start from 0, run the white loop
over the white piece keys, then the black loop over the black piece keys. -/
def evaluate (bm : BoardMap) : Int :=
  (get_piece_keys bm PieceColor.black).foldl (black_step bm)
    ((get_piece_keys bm PieceColor.white).foldl (white_step bm) 0)

/-- Outcome of `AChessGod::CalculateRandomAIMove`: the early-return empty
`Result` (the no-pieces sentinel), a chosen `(from, to)` pair, or `looping` —
the `while (!foundValidMove)` loop has not exited within the given fuel. -/
inductive AIMoveOutcome where
  | empty_result
  | move (from_pos to_pos : Position)
  | looping
deriving DecidableEq

/-- The `while (!foundValidMove)` loop of `AChessGod::CalculateRandomAIMove`.
`picks` supplies the successive `FMath::RandRange` draws (two per iteration,
reduced modulo the relevant size); the fuel counts loop iterations, and
exhausting it means the C++ loop is still running after that many turns. -/
def random_ai_loop (bm : BoardMap) (piece_keys : List Int)
    (picks : Nat → Nat) : Nat → AIMoveOutcome
  | 0 => AIMoveOutcome.looping
  | Nat.succ fuel =>
    if 0 < ((get_valid_moves bm
        (piece_keys.getD (picks (2 * fuel) % piece_keys.length) 0)
        false).getD []).length then
      AIMoveOutcome.move
        (to_position (piece_keys.getD (picks (2 * fuel) % piece_keys.length) 0))
        (to_position (((get_valid_moves bm
            (piece_keys.getD (picks (2 * fuel) % piece_keys.length) 0)
            false).getD []).getD
          (picks (2 * fuel + 1) % ((get_valid_moves bm
            (piece_keys.getD (picks (2 * fuel) % piece_keys.length) 0)
            false).getD []).length) 0))
    else random_ai_loop bm piece_keys picks fuel

/-- Mirrors `AChessGod::CalculateRandomAIMove`: with zero pieces of the moving
color it returns the empty `Result` immediately; otherwise it runs the random
sampling loop. -/
def CalculateRandomAIMove (bm : BoardMap) (is_white_ai : Bool)
    (picks : Nat → Nat) (fuel : Nat) : AIMoveOutcome :=
  if (get_piece_keys bm
      (if is_white_ai then PieceColor.white else PieceColor.black)).length = 0
  then AIMoveOutcome.empty_result
  else
    random_ai_loop bm
      (get_piece_keys bm
        (if is_white_ai then PieceColor.white else PieceColor.black))
      picks fuel

/-- Swap white and black (used to state the color-swap claims). -/
def swap_color : PieceColor → PieceColor
  | PieceColor.white => PieceColor.black
  | PieceColor.black => PieceColor.white
  | PieceColor.absent => PieceColor.absent

/-- Swap the color of one cell, keeping its piece type. -/
def swap_cell (c : Cell) : Cell := ⟨c.piece, swap_color c.piece_color⟩

/-- Swap every piece's color on an otherwise identical board. -/
def swap_board (bm : BoardMap) : BoardMap :=
  bm.map fun e => (e.1, swap_cell e.2)

/-- Per-piece score taken from claim C2's words: each piece contributes its
value (positive for white, negative for black, king at 100), except that a
king currently capturable by the opponent contributes the opposite sign of
100 instead. -/
def claim_piece_contribution (bm : BoardMap) (e : Int × Cell) : Int :=
  match e.2.piece_color with
  | PieceColor.white =>
    if e.2.piece = PieceType.king ∧ can_be_captured bm e.1 = some true then
      -100
    else piece_value e.2.piece
  | PieceColor.black =>
    if e.2.piece = PieceType.king ∧ can_be_captured bm e.1 = some true then
      100
    else -(piece_value e.2.piece)
  | PieceColor.absent => 0

/-- The board score claim C2 describes: the sum of `claim_piece_contribution`
over all cells. -/
def claim_evaluate (bm : BoardMap) : Int :=
  (bm.map (claim_piece_contribution bm)).sum

/-- Per-piece score the code actually implements: a non-king piece contributes
its value (positive for white, negative for black); a king contributes 0 when
not capturable and -100 (white) or +100 (black) when capturable. -/
def piece_contribution (bm : BoardMap) (e : Int × Cell) : Int :=
  match e.2.piece_color with
  | PieceColor.white =>
    if e.2.piece = PieceType.king then
      if can_be_captured bm e.1 = some true then -100 else 0
    else piece_value e.2.piece
  | PieceColor.black =>
    if e.2.piece = PieceType.king then
      if can_be_captured bm e.1 = some true then 100 else 0
    else -(piece_value e.2.piece)
  | PieceColor.absent => 0

/-- The score delta contributed by one white piece key in `evaluate`. -/
def white_delta (bm : BoardMap) (k : Int) : Int :=
  match find_cell bm k with
  | some c =>
    if c.piece = PieceType.king then
      if can_be_captured bm k = some true then -100 else 0
    else piece_value c.piece
  | Option.none => 0

/-- The score delta contributed by one black piece key in `evaluate`. -/
def black_delta (bm : BoardMap) (k : Int) : Int :=
  match find_cell bm k with
  | some c =>
    if c.piece = PieceType.king then
      if can_be_captured bm k = some true then 100 else 0
    else -(piece_value c.piece)
  | Option.none => 0

/-- Every cell is coherently either empty (`none`/`absent`) or occupied — the
invariant the engine's own mutators (`set_piece` with a real piece,
`move_piece`, `remove_piece`) maintain. -/
def WellFormed (bm : BoardMap) : Prop :=
  ∀ e ∈ bm, (e.2.piece = PieceType.none ↔ e.2.piece_color = PieceColor.absent)

/-- No cell of the board holds a pawn. -/
def PawnFree (bm : BoardMap) : Prop :=
  ∀ e ∈ bm, e.2.piece ≠ PieceType.pawn

/-- Tests that `key` is a valid, unoccupied cell of the board. -/
def cell_empty_at (bm : BoardMap) (key : Int) : Bool :=
  is_valid_position bm key &&
    !((find_cell bm key).getD Cell.empty).has_piece

/-- The fresh board with a single white king on `(0, 0)`. -/
def white_king_board : BoardMap :=
  (set_piece initial_board ⟨0, 0⟩ PieceType.king PieceColor.white).1

/-- The fresh board with a single white pawn on `(0, 5)`, the top of column 0:
the pawn has no forward square and nothing to capture, so white has a piece
but no legal move. -/
def stalemate_board : BoardMap :=
  (set_piece initial_board ⟨0, 5⟩ PieceType.pawn PieceColor.white).1

/-- A white king on `(4, 4)` attacked by a black pawn on `(5, 5)`. -/
def pawn_attack_board : BoardMap :=
  (set_piece (set_piece initial_board ⟨4, 4⟩ PieceType.king PieceColor.white).1
    ⟨5, 5⟩ PieceType.pawn PieceColor.black).1

/-- The fresh board with a single white rook on `(0, 0)`. -/
def white_rook_board : BoardMap :=
  (set_piece initial_board ⟨0, 0⟩ PieceType.rook PieceColor.white).1

/-- The fresh board with a single black rook on `(0, 0)`. -/
def black_rook_board : BoardMap :=
  (set_piece initial_board ⟨0, 0⟩ PieceType.rook PieceColor.black).1

/-- The fresh board with a single white pawn on its starting key `(1, 0)`. -/
def pawn_start_board : BoardMap :=
  (set_piece initial_board ⟨1, 0⟩ PieceType.pawn PieceColor.white).1

/-- A successful lookup returns an entry of the list. -/
theorem find_cell_mem {bm : BoardMap} {k : Int} {c : Cell}
    (h : find_cell bm k = some c) : (k, c) ∈ bm := by
  induction bm with
  | nil => simp [find_cell] at h
  | cons e rest ih =>
    by_cases he : e.1 = k
    · simp only [find_cell, he, if_pos] at h
      subst he
      cases h
      exact List.mem_cons_self _ _
    · simp only [find_cell, he, if_neg, if_false] at h
      exact List.mem_cons_of_mem _ (ih h)

/-- With duplicate-free keys, membership determines the lookup result. -/
theorem find_cell_of_mem_nodup {bm : BoardMap} {k : Int} {c : Cell}
    (hnd : (bm.map Prod.fst).Nodup) (h : (k, c) ∈ bm) :
    find_cell bm k = some c := by
  induction bm with
  | nil => simp at h
  | cons e rest ih =>
    rcases List.mem_cons.mp h with he | hr
    · subst he
      simp [find_cell]
    · have hk : e.1 ≠ k := by
        intro hek
        have : k ∈ rest.map Prod.fst := List.mem_map.mpr ⟨(k, c), hr, rfl⟩
        rw [List.map_cons, List.nodup_cons] at hnd
        exact hnd.1 (hek ▸ this)
      simp only [find_cell, hk, if_false, if_neg]
      exact ih ((List.nodup_cons.mp (List.map_cons _ _ _ ▸ hnd)).2) hr

/-- `set_cell` preserves which keys are present. -/
theorem is_valid_position_set_cell (bm : BoardMap) (k j : Int) (c : Cell) :
    is_valid_position (set_cell bm k c) j = is_valid_position bm j := by
  unfold is_valid_position set_cell
  induction bm with
  | nil => rfl
  | cons e rest ih =>
    simp only [List.map_cons]
    by_cases he : e.1 = k
    · by_cases hj : e.1 = j
      · have hkj : k = j := he.symm.trans hj
        simp [find_cell, he, hkj]
      · have hkj : ¬(k = j) := fun h => hj (he.trans h)
        simp [find_cell, he, hkj, ih]
    · by_cases hj : e.1 = j
      · have hjk : ¬(j = k) := fun h => he (hj.trans h)
        simp [find_cell, he, hj, hjk]
      · simp [find_cell, he, hj, ih]

/-- Decoding a key to a `Position` and re-encoding gives the key back. -/
theorem pos_key_to_position (k : Int) : pos_key (to_position k) = k := by
  show get_x k * 256 + get_y k = k
  unfold get_x get_y
  omega

/-- Claim C4: the freshly constructed board's valid-cell set has exactly 91
members (pairwise-distinct keys), and the per-column cell counts for columns
`x = 0..10` are `6,7,8,9,10,11,10,9,8,7,6`. -/
theorem C4_theorem :
    initial_board.length = 91 ∧
    (initial_board.map Prod.fst).Nodup ∧
    (List.range 11).map
        (fun x => (initial_board.filter
          fun e => decide (get_x e.1 = Int.ofNat x)).length) =
      [6, 7, 8, 9, 10, 11, 10, 9, 8, 7, 6] := by
  decide

/-- Claim C10: `move_piece` returns `true` for every pair of positions — also
when an endpoint is invalid and the board is left unchanged — so a caller
cannot tell from the return value whether the move took effect. -/
theorem C10_theorem (bm : BoardMap) (s g : Position) :
    (move_piece bm s g).2 = true ∧
    ((is_valid_position bm (pos_key s) &&
        is_valid_position bm (pos_key g)) = false →
      (move_piece bm s g).1 = bm) := by
  constructor
  · unfold move_piece
    by_cases h : is_valid_position bm (pos_key s) && is_valid_position bm (pos_key g)
    · simp only [h, if_true]
      cases find_cell bm (pos_key s) <;> rfl
    · simp [h]
  · intro h
    unfold move_piece
    simp [h]

/-- Claim C10 witness: an invalid source endpoint, `(0, 6)`, on the fresh
board — the call still returns `true` and the board is unchanged. -/
theorem C10_witness :
    (move_piece initial_board ⟨0, 6⟩ ⟨0, 0⟩).2 = true ∧
    (move_piece initial_board ⟨0, 6⟩ ⟨0, 0⟩).1 = initial_board :=
  ⟨(C10_theorem initial_board ⟨0, 6⟩ ⟨0, 0⟩).1,
   (C10_theorem initial_board ⟨0, 6⟩ ⟨0, 0⟩).2 (by decide)⟩

/-- Claim C6: `move_piece` mutates the board exactly when both endpoints are
valid keys, in which case it clears the source cell and unconditionally
overwrites the destination cell with the source's old piece and color,
checking no legality or capture rule; otherwise the board is unchanged. -/
theorem C6_theorem (bm : BoardMap) (start goal : Position) :
    (move_piece bm start goal).1 =
      if is_valid_position bm (pos_key start) &&
          is_valid_position bm (pos_key goal) then
        set_cell (set_cell bm (pos_key start) Cell.empty) (pos_key goal)
          ((find_cell bm (pos_key start)).getD Cell.empty)
      else bm := by
  unfold move_piece set_piece
  by_cases h : is_valid_position bm (pos_key start) && is_valid_position bm (pos_key goal)
  · simp only [h, if_true]
    rw [Bool.and_eq_true] at h
    have hg : is_valid_position bm (pos_key goal) = true := h.2
    have hs : is_valid_position bm (pos_key start) = true := h.1
    cases hfc : find_cell bm (pos_key start) with
    | none =>
      unfold is_valid_position at hs
      rw [hfc] at hs
      cases hs
    | some c =>
      simp only [hfc]
      rw [is_valid_position_set_cell]
      simp [hg]
  · simp [h]

/-- Claim C1 counterexample: key `6` (position `(0, 6)`) is outside the valid
cell set of the fresh board, yet `get_valid_moves` and `can_be_captured` do
not return an empty list or `false` there — they reach the undefined-behaviour
path (`in_board[key]` default-inserts a null cell which is then dereferenced),
modelled by `Option.none`. -/
theorem C1_counterexample :
    get_valid_moves initial_board 6 false ≠ some [] ∧
    can_be_captured initial_board 6 ≠ some false ∧
    get_valid_moves initial_board 6 false = Option.none ∧
    can_be_captured initial_board 6 = Option.none := by
  decide

/-- Claim C1 as amended: for a key outside the valid-cell set the mutators
`move_piece` and `set_piece` are silent no-ops, but the queries
`get_valid_moves` and `can_be_captured` dereference a missing (default
null-inserted) cell — undefined behaviour, modelled `Option.none` — instead
of returning empty or `false`. -/
theorem C1_theorem (bm : BoardMap) (k : Int)
    (h : find_cell bm k = Option.none) :
    get_valid_moves bm k false = Option.none ∧
    get_valid_moves bm k true = Option.none ∧
    can_be_captured bm k = Option.none ∧
    (∀ g : Position, (move_piece bm (to_position k) g).1 = bm) ∧
    (∀ s : Position, (move_piece bm s (to_position k)).1 = bm) ∧
    (∀ pt pc, (set_piece bm (to_position k) pt pc).1 = bm) := by
  have hv : is_valid_position bm k = false := by
    unfold is_valid_position
    rw [h]
    rfl
  refine ⟨?_, ?_, ?_, ?_, ?_, ?_⟩
  · unfold get_valid_moves
    rw [h]
  · unfold get_valid_moves
    rw [h]
  · unfold can_be_captured
    rw [h]
    rfl
  · intro g
    unfold move_piece
    simp [pos_key_to_position, hv]
  · intro s
    unfold move_piece
    simp [pos_key_to_position, hv]
  · intro pt pc
    unfold set_piece
    simp [pos_key_to_position, hv]

/-- Claim C1 witness: the amended statement instantiated at the fresh board
and the invalid key `6`. -/
theorem C1_witness :
    get_valid_moves initial_board 6 false = Option.none ∧
    can_be_captured initial_board 6 = Option.none ∧
    (move_piece initial_board (to_position 6) ⟨0, 0⟩).1 = initial_board ∧
    (move_piece initial_board ⟨0, 0⟩ (to_position 6)).1 = initial_board ∧
    (set_piece initial_board (to_position 6) PieceType.queen
      PieceColor.white).1 = initial_board :=
  ⟨(C1_theorem initial_board 6 (by decide)).1,
   (C1_theorem initial_board 6 (by decide)).2.2.1,
   (C1_theorem initial_board 6 (by decide)).2.2.2.1 ⟨0, 0⟩,
   (C1_theorem initial_board 6 (by decide)).2.2.2.2.1 ⟨0, 0⟩,
   (C1_theorem initial_board 6 (by decide)).2.2.2.2.2 PieceType.queen
     PieceColor.white⟩

/-- Claim C3: whenever the board holds a king of the moving piece's color
(located as the code locates it), every move the filtered move list offers
for an occupied position, once simulated, leaves that king on a square the
opponent cannot capture. -/
theorem C3_theorem (bm : BoardMap) (p k kk : Int) (cell : Cell)
    (hc : find_cell bm p = some cell)
    (hk : (get_piece_keys bm cell.piece_color).find? (is_king_at bm) = some kk)
    (hm : k ∈ (get_valid_moves bm p false).getD []) :
    can_be_captured (move_piece bm (to_position p) (to_position k)).1
      (if cell.piece = PieceType.king then k else kk) = some false := by
  unfold get_valid_moves at hm
  rw [hc] at hm
  simp only [hk, Option.getD_some] at hm
  exact of_decide_eq_true (List.mem_filter.mp hm).2

/-- Claim C3 witness: on the board holding a single white king at `(0, 0)`,
the filtered move to key `1` leaves the king uncapturable. -/
theorem C3_witness :
    can_be_captured
      (move_piece white_king_board (to_position 0) (to_position 1)).1
      (if (⟨PieceType.king, PieceColor.white⟩ : Cell).piece = PieceType.king
        then 1 else 0) = some false :=
  C3_theorem white_king_board 0 1 0 ⟨PieceType.king, PieceColor.white⟩
    (by decide) (by decide) (by decide)

/-- Claim C5: on a board where the moving side owns a piece (a lone white
pawn boxed in at the top of column 0) but no piece has any legal move, the
random AI's `while (!foundValidMove)` loop never exits — for every random
draw sequence and every number of iterations it is still looping, so the
sentinel result is never produced.  (With zero pieces the early return does
produce the empty result; the claim fails on the pieces-but-no-moves case.) -/
theorem C5_theorem (picks : Nat → Nat) (fuel : Nat) :
    CalculateRandomAIMove stalemate_board true picks fuel =
      AIMoveOutcome.looping ∧
    CalculateRandomAIMove initial_board true picks fuel =
      AIMoveOutcome.empty_result := by
  constructor
  · have hpk : get_piece_keys stalemate_board PieceColor.white = [5] := by
      decide
    have hmv : (get_valid_moves stalemate_board 5 false).getD [] =
        ([] : List Int) := by decide
    have hloop : ∀ n, random_ai_loop stalemate_board [5] picks n =
        AIMoveOutcome.looping := by
      intro n
      induction n with
      | zero => rfl
      | succ m ih =>
        unfold random_ai_loop
        have hidx : ([(5 : Int)].getD (picks (2 * m) % [(5 : Int)].length) 0)
            = 5 := by
          simp [Nat.mod_one]
        rw [hidx, hmv]
        simpa using ih
    unfold CalculateRandomAIMove
    rw [show (if (true : Bool) = true then PieceColor.white
        else PieceColor.black) = PieceColor.white from rfl, hpk]
    simpa using hloop fuel
  · have hpk : get_piece_keys initial_board PieceColor.white = [] := by
      decide
    unfold CalculateRandomAIMove
    rw [show (if (true : Bool) = true then PieceColor.white
        else PieceColor.black) = PieceColor.white from rfl, hpk]
    rfl

/-- Whatever `add_if_valid` adds is the key it was given. -/
theorem add_if_valid_mem {bm : BoardMap} {key j : Int} {cell : Cell}
    {ct : Bool} (h : j ∈ add_if_valid bm key cell ct) : j = key := by
  unfold add_if_valid at h
  split at h
  · split at h
    · split at h
      · simpa using h
      · simp at h
    · simpa using h
  · simp at h

/-- A key added by `add_if_valid` with `can_take = false` is an empty cell. -/
theorem add_if_valid_false_empty {bm : BoardMap} {key j : Int} {cell : Cell}
    (h : j ∈ add_if_valid bm key cell false) : cell_empty_at bm key = true := by
  unfold add_if_valid at h
  unfold cell_empty_at
  split at h
  next hvalid =>
    split at h
    next hhas =>
      split at h
      · next hcond => simp at hcond
      · simp at h
    next hhas => simp [hvalid, hhas]
  next => simp at h

/-- Whatever `add_pawn_take_if_valid` adds is the key it was given. -/
theorem add_pawn_take_mem {bm : BoardMap} {key j : Int} {cell : Cell}
    (h : j ∈ add_pawn_take_if_valid bm key cell) : j = key := by
  unfold add_pawn_take_if_valid at h
  split at h
  · simpa using h
  · simp at h

/-- If the two-step destination appears in a pawn's direction-instantiated
move batch, the pawn stood on a starting key and the intermediate cell is
empty (given that the two-step key collides with no other batch member). -/
theorem pawn_dir_two_step {bm : BoardMap} {key : Int} {cell : Cell}
    {fm t1 t2 : Int → Int}
    (hne1 : t1 key ≠ fm (fm key)) (hne2 : t2 key ≠ fm (fm key))
    (hne3 : fm key ≠ fm (fm key))
    (hmem : fm (fm key) ∈ pawn_moves_dir bm key cell fm t1 t2) :
    is_initial_pawn_cell key cell = true ∧
      cell_empty_at bm (fm key) = true := by
  unfold pawn_moves_dir at hmem
  rcases List.mem_append.mp hmem with hfwd | h2
  rcases List.mem_append.mp hfwd with h | h
  · split at h
    next hvalid =>
      rcases List.mem_append.mp h with hs | hd
      · exact absurd (add_if_valid_mem hs).symm hne3
      · split at hd
        · next hguard =>
          rw [Bool.and_eq_true] at hguard
          refine ⟨hguard.2, ?_⟩
          unfold cell_empty_at
          rw [hvalid, hguard.1]
          rfl
        · simp at hd
    next => simp at h
  · exact absurd (add_pawn_take_mem h).symm hne1
  · exact absurd (add_pawn_take_mem h2).symm hne2

/-- If the one-step destination appears in a pawn's direction-instantiated
move batch, the destination cell is empty (given that the one-step key
collides with no other batch member). -/
theorem pawn_dir_one_step {bm : BoardMap} {key : Int} {cell : Cell}
    {fm t1 t2 : Int → Int}
    (hne1 : t1 key ≠ fm key) (hne2 : t2 key ≠ fm key)
    (hne3 : fm key ≠ fm (fm key))
    (hmem : fm key ∈ pawn_moves_dir bm key cell fm t1 t2) :
    cell_empty_at bm (fm key) = true := by
  unfold pawn_moves_dir at hmem
  rcases List.mem_append.mp hmem with hfwd | h2
  rcases List.mem_append.mp hfwd with h | h
  · split at h
    next hvalid =>
      rcases List.mem_append.mp h with hs | hd
      · exact add_if_valid_false_empty hs
      · split at hd
        · exact absurd (add_if_valid_mem hd) hne3
        · simp at hd
    next => simp at h
  · exact absurd (add_pawn_take_mem h) (Ne.symm hne1)
  · exact absurd (add_pawn_take_mem h2) (Ne.symm hne2)

/-- The one- and two-step forward keys of a white pawn never collide with its
other generated keys. -/
theorem white_pawn_keys_distinct (key : Int) :
    move_horizontally_top_left key ≠
      move_vertically_up (move_vertically_up key) ∧
    move_horizontally_top_right key ≠
      move_vertically_up (move_vertically_up key) ∧
    move_vertically_up key ≠ move_vertically_up (move_vertically_up key) ∧
    move_horizontally_top_left key ≠ move_vertically_up key ∧
    move_horizontally_top_right key ≠ move_vertically_up key := by
  unfold move_horizontally_top_left move_horizontally_top_right
    move_vertically_up step_x median
  refine ⟨?_, ?_, ?_, ?_, ?_⟩ <;> first | (split <;> omega) | omega

/-- The one- and two-step forward keys of a black pawn never collide with its
other generated keys. -/
theorem black_pawn_keys_distinct (key : Int) :
    move_horizontally_bottom_left key ≠
      move_vertically_down (move_vertically_down key) ∧
    move_horizontally_bottom_right key ≠
      move_vertically_down (move_vertically_down key) ∧
    move_vertically_down key ≠
      move_vertically_down (move_vertically_down key) ∧
    move_horizontally_bottom_left key ≠ move_vertically_down key ∧
    move_horizontally_bottom_right key ≠ move_vertically_down key := by
  unfold move_horizontally_bottom_left move_horizontally_bottom_right
    move_vertically_down step_x median
  refine ⟨?_, ?_, ?_, ?_, ?_⟩ <;> first | (split <;> omega) | omega

/-- Claim C7: a pawn's two-step forward move is generated only when the pawn
stands on one of the fixed per-color starting keys and the intermediate
(one-step-forward) cell is empty; its single forward step is generated only
into an empty cell.  (`fm` is the color's forward direction as the code
selects it.) -/
theorem C7_theorem (bm : BoardMap) (key : Int) (cell : Cell) (fm : Int → Int)
    (_hc : find_cell bm key = some cell) (hp : cell.piece = PieceType.pawn)
    (hfm : (cell.piece_color = PieceColor.white ∧ fm = move_vertically_up) ∨
           (cell.piece_color = PieceColor.black ∧ fm = move_vertically_down)) :
    (fm (fm key) ∈ raw_moves bm key cell →
      is_initial_pawn_cell key cell = true ∧
        cell_empty_at bm (fm key) = true) ∧
    (fm key ∈ raw_moves bm key cell →
      cell_empty_at bm (fm key) = true) := by
  rcases hfm with ⟨hcol, hfmeq⟩ | ⟨hcol, hfmeq⟩ <;> subst hfmeq
  · have hraw : raw_moves bm key cell =
        pawn_moves_dir bm key cell move_vertically_up
          move_horizontally_top_left move_horizontally_top_right := by
      unfold raw_moves add_pawn_moves
      rw [hp, hcol]
    rw [hraw]
    exact ⟨fun hmem => pawn_dir_two_step (white_pawn_keys_distinct key).1
        (white_pawn_keys_distinct key).2.1
        (white_pawn_keys_distinct key).2.2.1 hmem,
      fun hmem => pawn_dir_one_step (white_pawn_keys_distinct key).2.2.2.1
        (white_pawn_keys_distinct key).2.2.2.2
        (white_pawn_keys_distinct key).2.2.1 hmem⟩
  · have hraw : raw_moves bm key cell =
        pawn_moves_dir bm key cell move_vertically_down
          move_horizontally_bottom_left move_horizontally_bottom_right := by
      unfold raw_moves add_pawn_moves
      rw [hp, hcol]
    rw [hraw]
    exact ⟨fun hmem => pawn_dir_two_step (black_pawn_keys_distinct key).1
        (black_pawn_keys_distinct key).2.1
        (black_pawn_keys_distinct key).2.2.1 hmem,
      fun hmem => pawn_dir_one_step (black_pawn_keys_distinct key).2.2.2.1
        (black_pawn_keys_distinct key).2.2.2.2
        (black_pawn_keys_distinct key).2.2.1 hmem⟩

/-- Claim C7 witness: a white pawn on its starting key `(1, 0)` with both
cells ahead empty — the theorem applied to its generated double step yields
the starting-key and empty-intermediate facts. -/
theorem C7_witness :
    is_initial_pawn_cell 256 ⟨PieceType.pawn, PieceColor.white⟩ = true ∧
    cell_empty_at pawn_start_board (move_vertically_up 256) = true :=
  (C7_theorem pawn_start_board 256 ⟨PieceType.pawn, PieceColor.white⟩
    move_vertically_up (by decide) rfl (Or.inl ⟨rfl, rfl⟩)).1 (by decide)

/-- A concatenation over a list is empty when every batch is empty. -/
theorem flatMap_nil_of_forall {α β : Type} {l : List α} {f : α → List β}
    (h : ∀ a ∈ l, f a = []) : l.flatMap f = [] := by
  induction l with
  | nil => rfl
  | cons a rest ih =>
    rw [List.flatMap_cons, h a (List.mem_cons_self a rest),
      ih fun b hb => h b (List.mem_cons_of_mem a hb)]
    rfl

/-- Claim C9: on a coherent board (empty cells are `none`/`absent`, keys
duplicate-free, as the engine maintains), `can_be_captured` at a valid but
unoccupied position returns `false` — the opposite color of the empty cell is
`absent`, and absent-colored cells generate no moves — even if some opponent
piece could move there. -/
theorem C9_theorem (bm : BoardMap) (p : Int) (c : Cell)
    (hnd : (bm.map Prod.fst).Nodup) (hw : WellFormed bm)
    (hc : find_cell bm p = some c) (hp : c.piece = PieceType.none) :
    can_be_captured bm p = some false := by
  have habs : c.piece_color = PieceColor.absent :=
    (hw _ (find_cell_mem hc)).mp hp
  have hopp : c.get_opposite_color = PieceColor.absent := by
    unfold Cell.get_opposite_color
    rw [habs]
  have hraw : all_raw_move_keys bm PieceColor.absent = [] := by
    unfold all_raw_move_keys
    apply flatMap_nil_of_forall
    intro k hk
    unfold get_piece_keys at hk
    rw [List.mem_reverse] at hk
    rcases List.mem_map.mp hk with ⟨e, he, hek⟩
    have hef := List.mem_filter.mp he
    have hecolor : e.2.piece_color = PieceColor.absent :=
      of_decide_eq_true hef.2
    have hfe : find_cell bm k = some e.2 :=
      hek ▸ find_cell_of_mem_nodup hnd hef.1
    rw [hfe]
    have hnone : e.2.piece = PieceType.none := (hw _ hef.1).mpr hecolor
    simp only [Option.getD_some]
    unfold raw_moves
    rw [hnone]
  unfold can_be_captured
  rw [hc]
  show some (decide (p ∈ all_raw_move_keys bm c.get_opposite_color)) =
    some false
  rw [hopp, hraw]
  simp

/-- Claim C9 witness: on the board holding only a black rook at `(0, 0)`, the
empty cell at key `3` is reachable by the rook, yet `can_be_captured` reports
`false` there. -/
theorem C9_witness : can_be_captured black_rook_board 3 = some false :=
  C9_theorem black_rook_board 3 Cell.empty (by decide)
    (by unfold WellFormed; decide) (by decide) rfl

/-- Folding a step of the shape `s + f k` over a list adds the mapped sum to
the seed. -/
theorem foldl_shift (g : Int → Int → Int) (f : Int → Int)
    (hg : ∀ s k, g s k = s + f k) (l : List Int) :
    ∀ init : Int, l.foldl g init = init + (l.map f).sum := by
  induction l with
  | nil =>
    intro init
    simp
  | cons a rest ih =>
    intro init
    rw [List.foldl_cons, hg, ih, List.map_cons, List.sum_cons]
    ring

/-- The white evaluation step adds `white_delta`. -/
theorem white_step_delta (bm : BoardMap) (s k : Int) :
    white_step bm s k = s + white_delta bm k := by
  unfold white_step white_delta
  cases hf : find_cell bm k with
  | none => simp
  | some c =>
    by_cases hk : c.piece = PieceType.king
    · by_cases hcap : can_be_captured bm k = some true
      · simp [hk, hcap, piece_value]
        ring
      · simp [hk, hcap]
    · simp [hk]

/-- The black evaluation step adds `black_delta`. -/
theorem black_step_delta (bm : BoardMap) (s k : Int) :
    black_step bm s k = s + black_delta bm k := by
  unfold black_step black_delta
  cases hf : find_cell bm k with
  | none => simp
  | some c =>
    by_cases hk : c.piece = PieceType.king
    · by_cases hcap : can_be_captured bm k = some true
      · simp [hk, hcap, piece_value]
      · simp [hk, hcap]
    · simp [hk]
      ring

/-- `evaluate` as the sum of per-key deltas over the two color key lists. -/
theorem evaluate_eq_delta_sums (bm : BoardMap) :
    evaluate bm =
      ((get_piece_keys bm PieceColor.white).map (white_delta bm)).sum +
      ((get_piece_keys bm PieceColor.black).map (black_delta bm)).sum := by
  unfold evaluate
  rw [foldl_shift (black_step bm) (black_delta bm) (black_step_delta bm),
    foldl_shift (white_step bm) (white_delta bm) (white_step_delta bm)]
  ring

/-- A sum over all board entries splits into its white and black entry sums
when absent-colored entries contribute zero. -/
theorem sum_split_colors (bm : BoardMap) (g : Int × Cell → Int)
    (habs : ∀ e ∈ bm, e.2.piece_color = PieceColor.absent → g e = 0) :
    (bm.map g).sum =
      ((bm.filter fun e =>
        decide (e.2.piece_color = PieceColor.white)).map g).sum +
      ((bm.filter fun e =>
        decide (e.2.piece_color = PieceColor.black)).map g).sum := by
  induction bm with
  | nil => simp
  | cons e rest ih =>
    have ihr := ih fun a ha hcol => habs a (List.mem_cons_of_mem e ha) hcol
    rw [List.map_cons, List.sum_cons, List.filter_cons, List.filter_cons]
    cases hcol : e.2.piece_color with
    | absent =>
      rw [habs e (List.mem_cons_self e rest) hcol]
      simp [hcol, ihr]
    | white =>
      simp only [hcol, decide_eq_true_eq]
      simp [ihr]
      ring
    | black =>
      simp only [hcol, decide_eq_true_eq]
      simp [ihr]
      ring

set_option maxRecDepth 8000 in
/-- Claim C2 counterexample: on the board holding a single, non-capturable
white king, `evaluate` returns 0, while the claim's formula (every piece
contributes its value, the king at 100, unless capturable) gives 100. -/
theorem C2_counterexample :
    evaluate white_king_board ≠ claim_evaluate white_king_board ∧
    evaluate white_king_board = 0 ∧
    claim_evaluate white_king_board = 100 := by
  decide

/-- Claim C2 as amended: for every board with duplicate-free keys, `evaluate`
is the sum over all cells of a per-piece contribution in which a non-king
piece contributes its value (positive for white, negative for black) and a
king contributes 0 when not capturable and -100 (white) / +100 (black) when
capturable — the safe king contributes nothing, not its 100-point value. -/
theorem C2_theorem (bm : BoardMap) (hnd : (bm.map Prod.fst).Nodup) :
    evaluate bm = (bm.map (piece_contribution bm)).sum := by
  rw [evaluate_eq_delta_sums,
    sum_split_colors bm (piece_contribution bm) (fun e he hcol => by
      unfold piece_contribution
      rw [hcol])]
  congr 1
  · unfold get_piece_keys
    rw [List.map_reverse, List.sum_reverse, List.map_map]
    congr 1
    apply List.map_congr_left
    intro e he
    have hef := List.mem_filter.mp he
    have hcol : e.2.piece_color = PieceColor.white := of_decide_eq_true hef.2
    have hfe : find_cell bm e.1 = some e.2 :=
      find_cell_of_mem_nodup hnd hef.1
    show white_delta bm e.1 = piece_contribution bm e
    unfold white_delta piece_contribution
    rw [hfe, hcol]
  · unfold get_piece_keys
    rw [List.map_reverse, List.sum_reverse, List.map_map]
    congr 1
    apply List.map_congr_left
    intro e he
    have hef := List.mem_filter.mp he
    have hcol : e.2.piece_color = PieceColor.black := of_decide_eq_true hef.2
    have hfe : find_cell bm e.1 = some e.2 :=
      find_cell_of_mem_nodup hnd hef.1
    show black_delta bm e.1 = piece_contribution bm e
    unfold black_delta piece_contribution
    rw [hfe, hcol]

set_option maxRecDepth 8000 in
/-- Claim C2 witness: the amended statement instantiated at the single-king
board. -/
theorem C2_witness :
    evaluate white_king_board =
      (white_king_board.map (piece_contribution white_king_board)).sum :=
  C2_theorem white_king_board (by decide)

/-- Swapping a color twice is the identity. -/
theorem swap_color_involutive (pc : PieceColor) :
    swap_color (swap_color pc) = pc := by
  cases pc <;> rfl

/-- Swapping a cell's color keeps its piece type. -/
theorem swap_cell_piece (c : Cell) : (swap_cell c).piece = c.piece := rfl

/-- Swapping colors keeps the number of board entries. -/
theorem swap_board_length (bm : BoardMap) :
    (swap_board bm).length = bm.length :=
  List.length_map bm _

/-- Lookup in the color-swapped board swaps the looked-up cell. -/
theorem find_cell_swap (bm : BoardMap) (k : Int) :
    find_cell (swap_board bm) k = (find_cell bm k).map swap_cell := by
  induction bm with
  | nil => rfl
  | cons e rest ih =>
    by_cases he : e.1 = k
    · simp [swap_board, find_cell, he]
    · simp only [swap_board, List.map_cons, find_cell, he, if_false,
        if_neg, not_false_iff]
      simpa [swap_board] using ih

/-- Color-swapped boards present the same valid keys. -/
theorem is_valid_position_swap (bm : BoardMap) (k : Int) :
    is_valid_position (swap_board bm) k = is_valid_position bm k := by
  unfold is_valid_position
  rw [find_cell_swap]
  cases find_cell bm k <;> rfl

/-- The guarded cell access on the color-swapped board gives the swapped
cell (the empty default is its own swap). -/
theorem getD_swap (bm : BoardMap) (k : Int) :
    (find_cell (swap_board bm) k).getD Cell.empty =
      swap_cell ((find_cell bm k).getD Cell.empty) := by
  rw [find_cell_swap]
  cases find_cell bm k <;> rfl

/-- `has_piece` ignores the color. -/
theorem has_piece_swap (c : Cell) : (swap_cell c).has_piece = c.has_piece := rfl

/-- Same-color comparison is invariant under swapping both cells. -/
theorem same_color_swap (a b : Cell) :
    (swap_cell a).has_piece_of_same_color (swap_cell b) =
      a.has_piece_of_same_color b := by
  cases ha : a.piece_color <;> cases hb : b.piece_color <;>
    simp [Cell.has_piece_of_same_color, Cell.has_piece, swap_cell,
      swap_color, ha, hb]

/-- Opposite-color comparison is invariant under swapping both cells. -/
theorem opposite_color_swap (a b : Cell) :
    (swap_cell a).has_piece_of_opposite_color (swap_cell b) =
      a.has_piece_of_opposite_color b := by
  cases ha : a.piece_color <;> cases hb : b.piece_color <;>
    simp [Cell.has_piece_of_opposite_color, Cell.has_piece, swap_cell,
      swap_color, ha, hb]

/-- Taking the opposite color commutes with swapping. -/
theorem opposite_of_swap (c : Cell) :
    (swap_cell c).get_opposite_color = swap_color c.get_opposite_color := by
  cases hc : c.piece_color <;>
    simp [Cell.get_opposite_color, swap_cell, swap_color, hc]

/-- `add_if_valid` is invariant under swapping the board and the mover. -/
theorem add_if_valid_swap (bm : BoardMap) (key : Int) (cell : Cell)
    (ct : Bool) :
    add_if_valid (swap_board bm) key (swap_cell cell) ct =
      add_if_valid bm key cell ct := by
  unfold add_if_valid
  rw [is_valid_position_swap, getD_swap, has_piece_swap, opposite_color_swap]

/-- The sliding loop is invariant under swapping the board and the mover. -/
theorem slide_dir_swap (bm : BoardMap) (cell : Cell) (fn : Int → Int) :
    ∀ (fuel : Nat) (pos : Int),
      slide_dir (swap_board bm) (swap_cell cell) fn fuel pos =
        slide_dir bm cell fn fuel pos := by
  intro fuel
  induction fuel with
  | zero =>
    intro pos
    rfl
  | succ m ih =>
    intro pos
    unfold slide_dir
    rw [is_valid_position_swap, getD_swap, has_piece_swap, same_color_swap,
      ih]

/-- Direction-list sliding generation is swap-invariant. -/
theorem add_valid_moves_swap (bm : BoardMap) (key : Int)
    (fns : List (Int → Int)) (cell : Cell) :
    add_valid_moves (swap_board bm) key fns (swap_cell cell) =
      add_valid_moves bm key fns cell := by
  unfold add_valid_moves
  rw [swap_board_length]
  have hfn : (fun fn : Int → Int =>
        slide_dir (swap_board bm) (swap_cell cell) fn (bm.length + 1)
          (fn key)) =
      fun fn : Int → Int => slide_dir bm cell fn (bm.length + 1) (fn key) :=
    funext fun fn => slide_dir_swap bm cell fn _ _
  rw [hfn]

/-- Bishop generation is swap-invariant. -/
theorem add_bishop_moves_swap (bm : BoardMap) (key : Int) (cell : Cell) :
    add_bishop_moves (swap_board bm) key (swap_cell cell) =
      add_bishop_moves bm key cell := by
  unfold add_bishop_moves
  rw [add_valid_moves_swap]

/-- Rook generation is swap-invariant. -/
theorem add_rook_moves_swap (bm : BoardMap) (key : Int) (cell : Cell) :
    add_rook_moves (swap_board bm) key (swap_cell cell) =
      add_rook_moves bm key cell := by
  unfold add_rook_moves
  rw [add_valid_moves_swap]

/-- Knight generation is swap-invariant. -/
theorem add_knight_moves_swap (bm : BoardMap) (key : Int) (cell : Cell) :
    add_knight_moves (swap_board bm) key (swap_cell cell) =
      add_knight_moves bm key cell := by
  unfold add_knight_moves
  simp only [add_if_valid_swap]

/-- King generation is swap-invariant. -/
theorem add_king_moves_swap (bm : BoardMap) (key : Int) (cell : Cell) :
    add_king_moves (swap_board bm) key (swap_cell cell) =
      add_king_moves bm key cell := by
  unfold add_king_moves
  simp only [add_if_valid_swap]

/-- Raw move generation for any non-pawn piece is swap-invariant (pawns move
in color-dependent directions and are excluded). -/
theorem raw_moves_swap (bm : BoardMap) (k : Int) (c : Cell)
    (hnp : c.piece ≠ PieceType.pawn) :
    raw_moves (swap_board bm) k (swap_cell c) = raw_moves bm k c := by
  unfold raw_moves
  rw [swap_cell_piece]
  cases hp : c.piece
  case none => rfl
  case pawn => exact absurd hp hnp
  case knight => exact add_knight_moves_swap bm k c
  case bishop => exact add_bishop_moves_swap bm k c
  case rook => exact add_rook_moves_swap bm k c
  case queen => rw [add_bishop_moves_swap, add_rook_moves_swap]
  case king => exact add_king_moves_swap bm k c

/-- Piece keys of a color on the swapped board are the piece keys of the
opposite color on the original, in the same order. -/
theorem get_piece_keys_swap (bm : BoardMap) (pc : PieceColor) :
    get_piece_keys (swap_board bm) pc = get_piece_keys bm (swap_color pc) := by
  unfold get_piece_keys swap_board
  congr 1
  induction bm with
  | nil => rfl
  | cons e rest ih =>
    rw [List.map_cons, List.filter_cons, List.filter_cons]
    have hdec : decide ((swap_cell e.2).piece_color = pc) =
        decide (e.2.piece_color = swap_color pc) := by
      cases hce : e.2.piece_color <;> cases pc <;>
        simp [swap_cell, swap_color, hce]
    rw [hdec]
    by_cases hd : e.2.piece_color = swap_color pc
    · simp [hd, ih]
    · simp [hd, ih]

/-- On a pawn-free board, the raw attack coverage of a color on the swapped
board equals the coverage of the opposite color on the original. -/
theorem all_raw_move_keys_swap (bm : BoardMap) (hpf : PawnFree bm)
    (pc : PieceColor) :
    all_raw_move_keys (swap_board bm) pc =
      all_raw_move_keys bm (swap_color pc) := by
  unfold all_raw_move_keys
  rw [get_piece_keys_swap]
  have hfn : (fun k =>
        raw_moves (swap_board bm) k
          ((find_cell (swap_board bm) k).getD Cell.empty)) =
      fun k => raw_moves bm k ((find_cell bm k).getD Cell.empty) := by
    funext k
    rw [getD_swap]
    cases hf : find_cell bm k with
    | none => rfl
    | some c =>
      simp only [Option.getD_some]
      exact raw_moves_swap bm k c (hpf (k, c) (find_cell_mem hf))
  rw [hfn]

/-- On a pawn-free board, capturability is invariant under the color swap. -/
theorem can_be_captured_swap (bm : BoardMap) (hpf : PawnFree bm) (k : Int) :
    can_be_captured (swap_board bm) k = can_be_captured bm k := by
  unfold can_be_captured
  rw [find_cell_swap]
  cases hf : find_cell bm k with
  | none => rfl
  | some c =>
    show some (decide (k ∈
        all_raw_move_keys (swap_board bm) (swap_cell c).get_opposite_color)) =
      some (decide (k ∈ all_raw_move_keys bm c.get_opposite_color))
    rw [opposite_of_swap, all_raw_move_keys_swap bm hpf,
      swap_color_involutive]

/-- On a pawn-free board, the white evaluation delta on the swapped board is
the negated black delta. -/
theorem white_delta_swap (bm : BoardMap) (hpf : PawnFree bm) (k : Int) :
    white_delta (swap_board bm) k = -(black_delta bm k) := by
  unfold white_delta black_delta
  rw [find_cell_swap, can_be_captured_swap bm hpf]
  cases hf : find_cell bm k with
  | none => simp
  | some c =>
    simp only [Option.map_some']
    rw [swap_cell_piece]
    by_cases hk : c.piece = PieceType.king
    · by_cases hcap : can_be_captured bm k = some true <;>
        simp [hk, hcap]
    · simp [hk, swap_cell]

/-- On a pawn-free board, the black evaluation delta on the swapped board is
the negated white delta. -/
theorem black_delta_swap (bm : BoardMap) (hpf : PawnFree bm) (k : Int) :
    black_delta (swap_board bm) k = -(white_delta bm k) := by
  unfold white_delta black_delta
  rw [find_cell_swap, can_be_captured_swap bm hpf]
  cases hf : find_cell bm k with
  | none => simp
  | some c =>
    simp only [Option.map_some']
    rw [swap_cell_piece]
    by_cases hk : c.piece = PieceType.king
    · by_cases hcap : can_be_captured bm k = some true <;>
        simp [hk, hcap]
    · simp [hk, swap_cell]

/-- Summing a negated map negates the sum. -/
theorem sum_map_neg (l : List Int) (f : Int → Int) :
    (l.map fun k => -(f k)).sum = -((l.map f).sum) := by
  induction l with
  | nil => simp
  | cons a rest ih =>
    rw [List.map_cons, List.sum_cons, List.map_cons, List.sum_cons, ih]
    ring

set_option maxRecDepth 8000 in
/-- Claim C8 counterexample: a white king on `(4, 4)` attacked by a black
pawn on `(5, 5)` scores -101, but the color-swapped board scores 1, not 101 —
the swapped pawn attacks in the other vertical direction and no longer gives
check. -/
theorem C8_counterexample :
    evaluate (swap_board pawn_attack_board) ≠ -(evaluate pawn_attack_board) ∧
    evaluate pawn_attack_board = -101 ∧
    evaluate (swap_board pawn_attack_board) = 1 := by
  decide

/-- Claim C8 as amended: on every pawn-free board, `evaluate` of the
color-swapped board is the negation of `evaluate` — pawns are the only piece
whose move set depends on its color, so swapping them breaks the symmetry. -/
theorem C8_theorem (bm : BoardMap) (hpf : PawnFree bm) :
    evaluate (swap_board bm) = -(evaluate bm) := by
  rw [evaluate_eq_delta_sums, evaluate_eq_delta_sums]
  rw [get_piece_keys_swap, get_piece_keys_swap]
  rw [show swap_color PieceColor.white = PieceColor.black from rfl,
    show swap_color PieceColor.black = PieceColor.white from rfl]
  have h1 : (get_piece_keys bm PieceColor.black).map
        (white_delta (swap_board bm)) =
      (get_piece_keys bm PieceColor.black).map fun k => -(black_delta bm k) :=
    List.map_congr_left fun k _ => white_delta_swap bm hpf k
  have h2 : (get_piece_keys bm PieceColor.white).map
        (black_delta (swap_board bm)) =
      (get_piece_keys bm PieceColor.white).map fun k => -(white_delta bm k) :=
    List.map_congr_left fun k _ => black_delta_swap bm hpf k
  rw [h1, h2, sum_map_neg, sum_map_neg]
  ring

set_option maxRecDepth 8000 in
/-- Claim C8 witness: the amended statement instantiated at the pawn-free
board holding a single white rook (scores 5 and -5). -/
theorem C8_witness :
    PawnFree white_rook_board ∧
    evaluate (swap_board white_rook_board) = -(evaluate white_rook_board) :=
  ⟨by unfold PawnFree; decide,
   C8_theorem white_rook_board (by unfold PawnFree; decide)⟩

end Hexachess
